import Mathlib

/-!
Verification development for the SKY130 technology plugin
(`hammer/technology/sky130/__init__.py`).

The Python code is shallowly embedded over `List Char` strings: every
Python string operation used by the plugin (`startswith`, `in`, `split`,
`replace`, `strip`, regex-driven scans with fixed patterns) is modelled by
an executable function on character lists, and the plugin's corner-filename
parsing, configuration generation, artifact patch jobs and hook lookup are
translated statement by statement.  Runtime failures the Python code can
raise (`StopIteration`, `IndexError`, `FileNotFoundError`, `ValueError`)
are surfaced through `Except`.
-/

namespace Sky130

/-- Characters of a Python string. -/
abbrev Str := List Char

/-- Python whitespace: the characters matched by `\s` and stripped by `str.strip`. -/
def pyIsSpace (c : Char) : Bool :=
  c = ' ' || c = '\t' || c = '\n' || c = '\r' || c = '\x0b' || c = '\x0c'

/-- `s.startswith(pat)` on character lists (first argument is the pattern). -/
def startsW : Str → Str → Bool
  | [], _ => true
  | _ :: _, [] => false
  | p :: ps, c :: cs => p = c && startsW ps cs

/-- Python `pat in s` substring test. -/
def containsSub (pat : Str) : Str → Bool
  | [] => startsW pat []
  | c :: t => startsW pat (c :: t) || containsSub pat t

/-- Number of positions at which `pat` occurs in `s`. -/
def countSub (pat : Str) : Str → Nat
  | [] => 0
  | c :: t => (if startsW pat (c :: t) then 1 else 0) + countSub pat t

/-- Python `s.split(sep)` for a one-character separator (keeps empty pieces). -/
def splitOnCh (sep : Char) : Str → List Str
  | [] => [[]]
  | c :: t =>
    if c = sep then [] :: splitOnCh sep t
    else
      match splitOnCh sep t with
      | [] => [[c]]
      | h :: r => (c :: h) :: r

/-- Fueled worker for Python `s.split(sep)` with a multi-character separator.
The fuel only serves to make the left-to-right scan structurally recursive;
it is instantiated with the length of the string. -/
def splitOnStrGo (sep : Str) : Nat → Str → List Str
  | _, [] => [[]]
  | 0, s => [s]
  | fuel + 1, c :: t =>
    if startsW sep (c :: t) && !sep.isEmpty then
      [] :: splitOnStrGo sep fuel (t.drop (sep.length - 1))
    else
      match splitOnStrGo sep fuel t with
      | [] => [[c]]
      | h :: r => (c :: h) :: r

/-- Python `s.split(sep)` for a non-empty multi-character separator. -/
def splitOnStr (sep : Str) (s : Str) : List Str := splitOnStrGo sep s.length s

/-- Fueled worker for Python `s.replace(old, new)`: replace every occurrence,
scanning left to right and continuing after each replacement. -/
def replaceAllGo (pat rep : Str) : Nat → Str → Str
  | _, [] => []
  | 0, s => s
  | fuel + 1, c :: t =>
    if startsW pat (c :: t) && !pat.isEmpty then
      rep ++ replaceAllGo pat rep fuel (t.drop (pat.length - 1))
    else
      c :: replaceAllGo pat rep fuel t

/-- Python `s.replace(old, new)` (all occurrences). -/
def replaceAll (pat rep s : Str) : Str := replaceAllGo pat rep s.length s

/-- First index at which `pat` occurs in `s`. -/
def firstMatchIdx (pat : Str) : Str → Option Nat
  | [] => none
  | c :: t => if startsW pat (c :: t) then some 0 else (firstMatchIdx pat t).map (· + 1)

/-- First index `i ≥ start` with `s[i] = c`. -/
def firstCharIdxFrom (c : Char) (s : Str) (start : Nat) : Option Nat :=
  ((s.drop start).findIdx? (· = c)).map (start + ·)

/-- First index `i ≥ start` at which `pat` occurs in `s`. -/
def firstMatchIdxFrom (pat : Str) (s : Str) (start : Nat) : Option Nat :=
  (firstMatchIdx pat (s.drop start)).map (start + ·)

/-- Python `str.strip()`: remove leading and trailing whitespace. -/
def pyStrip (s : Str) : Str :=
  ((s.dropWhile pyIsSpace).reverse.dropWhile pyIsSpace).reverse

/-- Indices of lines satisfying `p` (the `[idx for idx, line in enumerate(sl) if …]` idiom). -/
def idxsWhere (p : Str → Bool) (sl : List Str) : List Nat :=
  (List.range sl.length).filter (fun i => p (sl.getD i []))

/-- Python `range(a, b)` as a list. -/
def rangeN (a b : Nat) : List Nat := (List.range (b - a)).map (a + ·)

/-- Python `sl[i] = f(sl[i])` (no effect when the index is out of range;
the embedded code separately models the `IndexError` cases that matter). -/
def listModify (f : Str → Str) (i : Nat) (sl : List Str) : List Str :=
  match sl[i]? with
  | none => sl
  | some x => sl.set i (f x)

/-- Python `sep.join(parts)`. -/
def joinWith (sep : Str) : List Str → Str
  | [] => []
  | [p] => p
  | p :: r => p ++ sep ++ joinWith sep r

/-- `writelines`: the byte content of a file written from a list of line strings. -/
def joinStr (sl : List Str) : Str := sl.flatten

/-- Python runtime failures surfaced by the plugin code. -/
inductive PErr where
  | stopIteration
  | indexError
  | keyError
  | valueError
  | fileNotFound
deriving DecidableEq, Repr

/-! ## String constants used by the plugin -/

def sFFm : Str := ("_ff").toList
def sSSm : Str := ("_ss").toList
def sTTm : Str := ("_tt").toList
def sFF : Str := ("ff").toList
def sSS : Str := ("ss").toList
def sTT : Str := ("tt").toList
def sFast : Str := ("fast").toList
def sTypical : Str := ("typical").toList
def sSlow : Str := ("slow").toList
def sDotLib : Str := (".lib").toList
def sNointpwr : Str := ("nointpwr").toList
def sUnd : Str := ("_").toList
def sOne : Str := ("1").toList
def sN : Str := ("n").toList
def sDash : Str := ("-").toList
def sSpaceC : Str := (" C").toList
def sDot : Str := (".").toList
def sSpaceV : Str := (" V").toList
def sZeroV : Str := ("0 V").toList
def sRVT : Str := ("RVT").toList
def sGpiov2Wrapped : Str := ("sky130_ef_io__gpiov2_pad_wrapped").toList
def sEfIo : Str := ("sky130_ef_io").toList
def sFdIo : Str := ("sky130_fd_io").toList
def sSkywaterLibs : Str := ("$SKY130A/libs.ref/sky130_fd_io").toList

/-! ## Corner Filename Parser, IO dialect (gen_config, IO library loop)

`re.split('_(ff)|_(ss)|_(tt)', tmp)` splits the name at every `_ff`/`_ss`/`_tt`
token; the pieces are interleaved with the three capture groups of each match
(the matched group is the two-letter code, the other two are `None`). -/

/-- Fueled worker for the `re.split('_(ff)|_(ss)|_(tt)', ·)` scan. -/
def regexSplitCornerGo : Nat → Str → List (Option Str)
  | _, [] => [some []]
  | 0, s => [some s]
  | fuel + 1, c :: t =>
    if startsW sFFm (c :: t) then
      some [] :: some sFF :: none :: none :: regexSplitCornerGo fuel (t.drop 2)
    else if startsW sSSm (c :: t) then
      some [] :: none :: some sSS :: none :: regexSplitCornerGo fuel (t.drop 2)
    else if startsW sTTm (c :: t) then
      some [] :: none :: none :: some sTT :: regexSplitCornerGo fuel (t.drop 2)
    else
      match regexSplitCornerGo fuel t with
      | some h :: r => some (c :: h) :: r
      | r => some [c] :: r

/-- `re.split('_(ff)|_(ss)|_(tt)', s)`. -/
def regexSplitCorner (s : Str) : List (Option Str) := regexSplitCornerGo s.length s

/-- The sequential if-chain mapping two-letter corner codes to speed names
(`if speed == 'ff': speed = 'fast'` and so on; unrecognized codes fall through). -/
def speedSeq (s0 : Str) : Str :=
  let s1 := if s0 = sFF then sFast else s0
  let s2 := if s1 = sTT then sTypical else s1
  if s2 = sSS then sSlow else s2

/-- `temp.replace('n', '-')` followed by `temp.split('C')[0] + ' C'`. -/
def tempConv (t : Str) : Str :=
  (splitOnCh 'C' (replaceAll sN sDash t)).headD [] ++ sSpaceC

/-- `'.'.join(vdd.split('v')) + ' V'` (the IO-dialect voltage conversion). -/
def vddConvIo (v : Str) : Str :=
  joinWith sDot (splitOnCh 'v' v) ++ sSpaceV

/-- One generated library record (artifact paths plus corner and supply data). -/
structure LibEntry where
  nldmLibertyFile : Str
  verilogSim : Str
  lefFile : Str
  spiceFile : Str
  gdsFile : Str
  cornerNmos : Str
  cornerPmos : Str
  cornerTemperature : Str
  supplyVdd : Str
  supplyGnd : Str
  provideType : Str
  provideVt : Str
deriving DecidableEq, Repr

/-- The `Library(...)` entry built for one IO corner file, including the
per-cell choice of LEF/GDS/SPICE artifacts. -/
def ioEntryFor (cellName fname speed temp vdd : Str) : LibEntry :=
  let base :=
    { nldmLibertyFile := sSkywaterLibs ++ ("/lib/").toList ++ fname
      verilogSim := []
      lefFile := []
      spiceFile := []
      gdsFile := []
      cornerNmos := speed
      cornerPmos := speed
      cornerTemperature := temp
      supplyVdd := vdd
      supplyGnd := sZeroV
      provideType := cellName
      provideVt := sRVT : LibEntry }
  if cellName = sGpiov2Wrapped then
    { base with
      verilogSim := sSkywaterLibs ++ ("/verilog/").toList ++ sEfIo ++ (".v").toList
      lefFile := ("cache/sky130_ef_io.lef").toList
      spiceFile := sSkywaterLibs ++ ("/cdl/").toList ++ sEfIo ++ (".cdl").toList
      gdsFile := sSkywaterLibs ++ ("/gds/").toList ++ cellName ++ (".gds").toList }
  else if containsSub sEfIo cellName then
    { base with
      verilogSim := sSkywaterLibs ++ ("/verilog/").toList ++ sEfIo ++ (".v").toList
      lefFile := ("cache/").toList ++ sEfIo ++ (".lef").toList
      spiceFile := sSkywaterLibs ++ ("/cdl/").toList ++ sEfIo ++ (".cdl").toList
      gdsFile := sSkywaterLibs ++ ("/gds/").toList ++ sEfIo ++ (".gds").toList }
  else
    { base with
      verilogSim := sSkywaterLibs ++ ("/verilog/").toList ++ sFdIo ++ (".v").toList
      lefFile := sSkywaterLibs ++ ("/lef/").toList ++ sFdIo ++ (".lef").toList
      spiceFile := sSkywaterLibs ++ ("/spice/").toList ++ sFdIo ++ (".spice").toList
      gdsFile := sSkywaterLibs ++ ("/gds/").toList ++ sFdIo ++ (".gds").toList }

/-- `tmp = cornerfilename.replace('.lib', '')`. -/
def ioTmp (fname : Str) : Str := replaceAll sDotLib [] fname

/-- `split_cell_corner = re.split('_(ff)|_(ss)|_(tt)', tmp)`. -/
def ioParts (fname : Str) : List (Option Str) := regexSplitCorner (ioTmp fname)

/-- `cell_name = split_cell_corner[0]`. -/
def ioCellName (fname : Str) : Str := ((ioParts fname).getD 0 (some [])).getD []

/-- `process = split_cell_corner[1:-1]`. -/
def ioProcess (fname : Str) : List (Option Str) := ((ioParts fname).drop 1).dropLast

/-- `temp_volt = split_cell_corner[-1].split('_')[1:]`. -/
def ioTempVolt (fname : Str) : List Str :=
  (splitOnCh '_' (((ioParts fname).getLast?.getD (some [])).getD [])).drop 1

/-- The cross-corner filter: with more than three group slots, compare the
first three capture groups pairwise against the groups after the duplication
point (`map(lambda p, q: p == q, process[0:3], process[4:])`, reduced with
`and`); `true` means the filename is skipped. -/
def crossRejectIo (process : List (Option Str)) : Bool :=
  decide (process.length > 3) &&
    !((process.take 3).zipWith (fun p q => decide (p = q)) (process.drop 4)).all id

/-- `next(c for c in process if c is not None)`; `none` models `StopIteration`. -/
def firstNonNone (process : List (Option Str)) : Option Str :=
  (process.filterMap id).head?

/-- The body of the IO library loop (gen_config lines 56-139) for one corner
filename: `ok none` models `continue` (file filtered out), `error` models an
uncaught Python exception, `ok (some e)` models appending a library entry. -/
def processIoCorner (fname : Str) : Except PErr (Option LibEntry) :=
  if containsSub sNointpwr fname then .ok none
  else
    let process := ioProcess fname
    let tempVolt := ioTempVolt fname
    if crossRejectIo process then .ok none
    else
      match firstNonNone process with
      | none => .error .stopIteration
      | some sp =>
        let speed := speedSeq (replaceAll sUnd [] sp)
        match tempVolt[0]? with
        | none => .error .indexError
        | some tv0 =>
          let temp := tempConv tv0
          match tempVolt[1]? with
          | none => .error .indexError
          | some tv1 =>
            let vdd := vddConvIo tv1
            match tempVolt[2]? with
            | none => .error .indexError
            | some tv2 =>
              if startsW sOne tv2 then .ok none
              else if tempVolt.length = 4 then
                match tempVolt[3]? with
                | none => .error .indexError
                | some tv3 =>
                  if startsW sOne tv3 then .ok none
                  else .ok (some (ioEntryFor (ioCellName fname) fname speed temp vdd))
              else .ok (some (ioEntryFor (ioCellName fname) fname speed temp vdd))

/-! ## Corner Filename Parser, stdcell dialects (gen_config, sky130_fd_sc_hd
and sky130_scl library loops) -/

def sSky130 : Str := ("sky130").toList
def sSky130m : Str := ("sky130_").toList
def sCcsnoise : Str := ("ccsnoise").toList
def sCcsnoiseLib : Str := ("_ccsnoise.lib").toList
def sDunder : Str := ("__").toList
def sHd : Str := ("sky130_fd_sc_hd").toList
def sScl : Str := ("sky130_scl").toList
def sStdcell : Str := ("stdcell").toList
def sSkywaterHd : Str := ("$SKY130A/libs.ref/sky130_fd_sc_hd").toList

/-- The `Library(...)` entry built for one sky130_fd_sc_hd corner file. -/
def hdEntryFor (fname speed temp vdd : Str) : LibEntry :=
  { nldmLibertyFile := sSkywaterHd ++ ("/lib/").toList ++ fname
    verilogSim := ("cache/sky130_fd_sc_hd.v").toList
    lefFile := sSkywaterHd ++ ("/lef/sky130_fd_sc_hd.lef").toList
    spiceFile := ("cache/sky130_fd_sc_hd.cdl").toList
    gdsFile := sSkywaterHd ++ ("/gds/sky130_fd_sc_hd.gds").toList
    cornerNmos := speed
    cornerPmos := speed
    cornerTemperature := temp
    supplyVdd := vdd
    supplyGnd := sZeroV
    provideType := sStdcell
    provideVt := sRVT }

/-- The body of the sky130_fd_sc_hd library loop (gen_config lines 187-242)
for one corner filename; `allFiles` is the sorted directory listing used by
the `ccsnoise` duplicate check. -/
def processHdCorner (allFiles : List Str) (fname : Str) : Except PErr (Option LibEntry) :=
  if !containsSub sSky130 fname then .ok none
  else if containsSub sCcsnoise fname then .ok none
  else
    let tmp := replaceAll sDotLib [] fname
    let fname2 := if (tmp ++ sCcsnoiseLib) ∈ allFiles then tmp ++ sCcsnoiseLib else fname
    match (splitOnStr sDunder tmp)[1]? with
    | none => .error .indexError
    | some cornername =>
      let cornerparts := splitOnCh '_' cornername
      match cornerparts[0]? with
      | none => .error .indexError
      | some cp0 =>
        let speed := speedSeq cp0
        match cornerparts[1]? with
        | none => .error .indexError
        | some cp1 =>
          let temp := tempConv cp1
          match cornerparts[2]? with
          | none => .error .indexError
          | some cp2 =>
            match (splitOnCh 'v' cp2)[0]?, (splitOnCh 'v' cp2)[1]? with
            | some v0, some v1 =>
              let vdd := v0 ++ sDot ++ v1 ++ sSpaceV
              .ok (some (hdEntryFor fname2 speed temp vdd))
            | _, _ => .error .indexError

/-- The `Library(...)` entry built for one sky130_scl corner file. -/
def sclEntryFor (fname speed temp vdd : Str) : LibEntry :=
  { nldmLibertyFile := ("$SKY130_SCL/lib/").toList ++ fname
    verilogSim := ("cache/sky130_scl.v").toList
    lefFile := ("$SKY130_SCL/lef/sky130_scl_9T.lef").toList
    spiceFile := ("cache/sky130_scl.cdl").toList
    gdsFile := ("$SKY130_CDS/gds/sky130_scl_9T.gds").toList
    cornerNmos := speed
    cornerPmos := speed
    cornerTemperature := temp
    supplyVdd := vdd
    supplyGnd := sZeroV
    provideType := sStdcell
    provideVt := sRVT }

/-- The body of the sky130_scl library loop (gen_config lines 279-334) for one
corner filename.  The corner data is hardcoded by a sequential if-chain on the
evolving `speed` variable. -/
def processSclCorner (allFiles : List Str) (fname : Str) : Except PErr (Option LibEntry) :=
  if !containsSub sSky130 fname then .ok none
  else if containsSub sCcsnoise fname then .ok none
  else
    let tmp := replaceAll sDotLib [] fname
    let fname2 := if (tmp ++ sCcsnoiseLib) ∈ allFiles then tmp ++ sCcsnoiseLib else fname
    let cornername := replaceAll sSky130m [] tmp
    let cornerparts := splitOnCh '_' cornername
    match cornerparts[0]? with
    | none => .error .indexError
    | some cp0 =>
      let speed0 := cp0
      let vdd0 : Str := []
      let temp0 : Str := []
      let r1 := if speed0 = sFF then (sFast, ("1.95 V").toList, ("-40 C").toList)
                else (speed0, vdd0, temp0)
      let r2 := if r1.1 = sTT then (sTypical, ("1.80 V").toList, ("25 C").toList) else r1
      let r3 := if r2.1 = sSS then (sSlow, ("1.60 V").toList, ("100 C").toList) else r2
      .ok (some (sclEntryFor fname2 r3.1 r3.2.2 r3.2.1))

/-- Run one of the per-file loop bodies over a directory listing, collecting
the produced entries and propagating raised exceptions. -/
def collectEntries (f : Str → Except PErr (Option LibEntry)) :
    List Str → Except PErr (List LibEntry)
  | [] => .ok []
  | fname :: rest =>
    match f fname with
    | .error e => .error e
    | .ok none => collectEntries f rest
    | .ok (some e) =>
      match collectEntries f rest with
      | .error err => .error err
      | .ok es => .ok (e :: es)

/-! ## gen_config: descriptor generation and its settings-store effect -/

/-- The host configuration store, a string-keyed key-value map. -/
def Store := String → Option String

/-- Write one key into the store. -/
def storeSet (st : Store) (k v : String) : Store :=
  fun q => if q = k then some v else st q

def kStdcellLibrary : String := "technology.sky130.stdcell_library"
def kClockGatingMode : String := "synthesis.clock_gating_mode"

/-- The part of the generated technology descriptor that the claims are
about: the ordered library list plus the per-family static tables. -/
structure TechDescr where
  techLefFile : String
  libraries : List LibEntry
  physOnly : List String
  dontUse : List String
  spclCells : List String
deriving Repr

def hdPhysOnly : List String :=
  ["sky130_fd_sc_hd__tap_1", "sky130_fd_sc_hd__tap_2", "sky130_fd_sc_hd__tapvgnd_1",
   "sky130_fd_sc_hd__tapvpwrvgnd_1", "sky130_fd_sc_hd__fill_1", "sky130_fd_sc_hd__fill_2",
   "sky130_fd_sc_hd__fill_4", "sky130_fd_sc_hd__fill_8", "sky130_fd_sc_hd__diode_2"]

def hdDontUse : List String :=
  ["*sdf*", "sky130_fd_sc_hd__probe_p_*", "sky130_fd_sc_hd__probec_p_*"]

def hdSpclCells : List String :=
  ["tiehilocell", "tiehicell", "tielocell", "endcap", "tapcell", "stdfiller", "decap",
   "driver", "ctsbuffer"]

def sclSpclCells : List String := ["stdfiller", "driver", "ctsbuffer"]

/-- `gen_config`: reads the stdcell-library selection from the store, builds
the IO library list and the selected stdcell library list, and — only in the
sky130_scl branch — writes the clock-gating setting.  Directory listings are
passed in as the (sorted) lists of corner filenames.  `.error .valueError`
models the `ValueError` raised for an unrecognized selection. -/
def genConfig (ioFiles hdFiles sclFiles : List Str) (store : Store) :
    Except PErr (TechDescr × Store) :=
  match store kStdcellLibrary with
  | none => .error .keyError
  | some slib =>
    if slib = "sky130_fd_sc_hd" then
      match collectEntries processIoCorner ioFiles with
      | .error e => .error e
      | .ok ioLibs =>
        match collectEntries (processHdCorner hdFiles) hdFiles with
        | .error e => .error e
        | .ok stdLibs =>
          .ok ({ techLefFile := "$SKY130A/sky130_fd_sc_hd__nom.tlef"
                 libraries := ioLibs ++ stdLibs
                 physOnly := hdPhysOnly
                 dontUse := hdDontUse
                 spclCells := hdSpclCells }, store)
    else if slib = "sky130_scl" then
      match collectEntries processIoCorner ioFiles with
      | .error e => .error e
      | .ok ioLibs =>
        let store2 := storeSet store kClockGatingMode ""
        match collectEntries (processSclCorner sclFiles) sclFiles with
        | .error e => .error e
        | .ok stdLibs =>
          .ok ({ techLefFile := "$SKY130_SCL/lef/sky130_scl_9T.tlef"
                 libraries := ioLibs ++ stdLibs
                 physOnly := hdPhysOnly
                 dontUse := hdDontUse
                 spclCells := sclSpclCells }, store2)
    else .error .valueError

/-! ## Legacy Artifact Patch Engine: setup_verilog -/

def sWire1 : Str := ("wire 1").toList
def sWire1C : Str := ("// wire 1").toList
def sEndifBleeder : Str := ("`endif SKY130_FD_SC_HD__LPFLOW_BLEEDER_FUNCTIONAL_V").toList
def sEndifBleederC : Str := ("`endif // SKY130_FD_SC_HD__LPFLOW_BLEEDER_FUNCTIONAL_V").toList
def sSentinel : Str := ("`ifndef SKY130_FD_SC_HD__LPFLOW_BLEEDER_1_TIMING_V").toList
def sBroken : Str := ("(SHORT => VPWR) = (0:0:0,0:0:0,0:0:0,0:0:0,0:0:0,0:0:0);").toList
def sEndifTok : Str := ("`endif").toList
def sSpecifyTok : Str := ("specify").toList
def sEndspecifyTok : Str := ("endspecify").toList
def sSleepTok : Str := ("SLEEP").toList
def sDelayedTok : Str := ("delayed").toList
def sDelayedSemi : Str := ("delayed;").toList
def sWireSleep : Str := ("wire SLEEP").toList

/-- Per-line fixes of the first setup_verilog pass (lines 461-465). -/
def verilogLineFix (l : Str) : Str :=
  replaceAll sEndifBleeder sEndifBleederC (replaceAll sWire1 sWire1C l)

/-- The specify-block excision (setup_verilog lines 467-489).  Each
`[...][0]` first-match lookup of the Python is modelled by `head?` on the
matching indices, with `IndexError` when no index matches (the dead
`broken_specify_idx = len(sl)-1` default in the source is overwritten by
the `[...][0]` subscript before it is ever read). -/
def exciseSpecify (sl : List Str) : Except PErr (List Str) :=
  match (idxsWhere (containsSub sSentinel) sl).head? with
  | none => .error .indexError
  | some startIdx =>
    let searchRange := rangeN (startIdx + 1) sl.length
    match (searchRange.filter (fun i => containsSub sBroken (sl.getD i []))).head? with
    | none => .error .indexError
    | some brokenIdx =>
      match (searchRange.filter (fun i => containsSub sEndifTok (sl.getD i []))).head? with
      | none => .error .indexError
      | some endifIdx =>
        if brokenIdx < endifIdx then
          let cellRange := rangeN (startIdx + 1) endifIdx
          match (cellRange.filter (fun i => containsSub sSpecifyTok (sl.getD i []))).head? with
          | none => .error .indexError
          | some spIdx =>
            match (cellRange.filter (fun i => containsSub sEndspecifyTok (sl.getD i []))).head? with
            | none => .error .indexError
            | some epIdx => .ok (sl.take spIdx ++ sl.drop (max spIdx (epIdx + 1)))
        else .ok sl

/-- Viability of a capture of `(SLEEP.*?B.*?delayed)` starting at position `i`
of a newline-free segment: the literal `SLEEP`, then the lazy `.*?` runs to the
first `B` at or after `i + 5` and to the first `delayed` after that `B`. -/
def viableCapture (s : Str) (i : Nat) : Option Str :=
  if startsW sSleepTok (s.drop i) then
    match firstCharIdxFrom 'B' s (i + 5) with
    | none => none
    | some j =>
      match firstMatchIdxFrom sDelayedTok s (j + 1) with
      | none => none
      | some k => some ((s.drop i).take (k + 7 - i))
  else none

/-- The single capture `re.findall(r".*(SLEEP.*?B.*?delayed).*", seg)` yields on
a newline-free segment: the leading greedy `.*` places the group at the last
viable start position, and the trailing `.*` consumes the rest of the segment,
so at most one match is found. -/
def segCapture (s : Str) : Option Str :=
  ((List.range s.length).filterMap (viableCapture s)).getLast?

/-- `re.findall(r".*(SLEEP.*?B.*?delayed).*", line)`: `.` does not match a
newline, so each newline-separated stretch is searched independently. -/
def findCaptures (line : Str) : List Str :=
  (splitOnCh '\n' line).filterMap segCapture

/-- `re.search(r"^\s*wire SLEEP.*B.*delayed;", line)`: leading whitespace
(which may include newlines), the literal `wire SLEEP`, then some `B` followed
later by `delayed;` within the same newline-free stretch. -/
def declMatch (line : Str) : Bool :=
  let t := line.dropWhile pyIsSpace
  startsW sWireSleep t &&
    (let seg := (t.drop 10).takeWhile (fun c => c ≠ '\n')
     match firstCharIdxFrom 'B' seg 0 with
     | none => false
     | some j => containsSub sDelayedSemi (seg.drop (j + 1)))

/-- `[(idx, re.findall(capture, line)[0]) for idx, line in enumerate(sl) if
re.search(decl, line)]`, with `IndexError` when `findall` returns nothing. -/
def declPairsGo (sl : List Str) : List Nat → Except PErr (List (Nat × Str))
  | [] => .ok []
  | i :: r =>
    match (findCaptures (sl.getD i [])).head? with
    | none => .error .indexError
    | some c =>
      match declPairsGo sl r with
      | .error e => .error e
      | .ok rest => .ok ((i, c) :: rest)

/-- The inner rewrite loop of the delayed-net harmonization: for each raw line
index in `[a, b)`, rewrite every captured variant that differs from the
canonical spelling. -/
def applyRange (sl : List Str) (canon : Str) (a b : Nat) : List Str :=
  (rangeN a b).foldl (fun sl2 idx =>
    (findCaptures (sl2.getD idx [])).foldl (fun sl3 elem =>
      if elem ≠ canon then listModify (replaceAll elem canon) idx sl3 else sl3) sl2) sl

/-- Walk the declaration list: each declaration governs the lines up to the
next declaration (or the end of file). -/
def harmonizeGo (sl : List Str) : List (Nat × Str) → List Str
  | [] => sl
  | [(i, c)] => applyRange sl c (i + 1) sl.length
  | (i, c) :: (j, c2) :: rest => harmonizeGo (applyRange sl c (i + 1) j) ((j, c2) :: rest)

/-- The delayed-net harmonization pass (setup_verilog lines 491-506). -/
def harmonize (sl : List Str) : Except PErr (List Str) :=
  match declPairsGo sl (idxsWhere declMatch sl) with
  | .error e => .error e
  | .ok pairs => .ok (harmonizeGo sl pairs)

/-- The complete `<library_name>.v` patch job body: per-line fixes, then the
specify excision, then the harmonization (the intermediate write/readback of
the destination preserves the line list and is elided). -/
def libVerilogTransform (src : List Str) : Except PErr (List Str) :=
  match exciseSpecify (src.map verilogLineFix) with
  | .error e => .error e
  | .ok sl2 => harmonize sl2

/-! ## Patch Engine: setup_cdl, primitives.v, setup_techlef, setup_io_lefs -/

def sPfet : Str := ("pfet_01v8_hvt").toList
def sNfet : Str := ("nfet_01v8").toList
def sScaleLine : Str := ("*.SCALE MICRON\n").toList

/-- Device names expected by the configured LVS tool (setup_cdl lines 419-427). -/
def cdlDeviceNames (lvsTool : String) : Str × Str :=
  if lvsTool = "hammer.lvs.calibre" then (("phighvt").toList, ("nshort").toList)
  else if lvsTool = "hammer.lvs.netgen" then
    (("sky130_fd_pr__pfet_01v8_hvt").toList, ("sky130_fd_pr__nfet_01v8").toList)
  else (sPfet, sNfet)

/-- `line.replace('pfet_01v8_hvt', pmos).replace('nfet_01v8', nmos)`. -/
def cdlLineFix (pmos nmos l : Str) : Str :=
  replaceAll sNfet nmos (replaceAll sPfet pmos l)

/-- The CDL patch job body: the unit-scale header line, then every source line
with the device-model renames applied. -/
def cdlTransform (lvsTool : String) (src : List Str) : List Str :=
  sScaleLine :: src.map (cdlLineFix (cdlDeviceNames lvsTool).1 (cdlDeviceNames lvsTool).2)

def sNettypeNone : Str := ("`default_nettype none").toList
def sNettypeWire : Str := ("`default_nettype wire").toList

/-- The primitives.v patch job body (setup_verilog lines 522-528). -/
def primitivesTransform (src : List Str) : List Str :=
  src.map (replaceAll sNettypeNone sNettypeWire)

def sEndPwell : Str := ("END pwell").toList
def tlefEdit : Str := ("\nLAYER licon\n  TYPE CUT ;\nEND licon\n").toList

/-- The tech-LEF patch job body (setup_techlef lines 542-549): copy every line
and append the licon cut-layer block right after the `END pwell` line. -/
def techlefTransform (src : List Str) : List Str :=
  (src.map (fun l => if pyStrip l = sEndPwell then [l, tlefEdit] else [l])).flatten

def sPort : Str := ("PORT").toList
def sPortRep : Str := ("PORT\n      CLASS CORE ;").toList
def sAreaio : Str := ("AREAIO").toList
def sSpacer : Str := ("SPACER").toList
def sPinSp : Str := ("PIN ").toList
def sEndSp : Str := ("END ").toList
def sVccd1 : Str := ("VCCD1").toList
def sVssd1 : Str := ("VSSD1").toList
def sMacroSp : Str := ("MACRO ").toList

def spacerCells : List Str :=
  [("sky130_ef_io__connect_vcchib_vccd_and_vswitch_vddio_slice_20um").toList,
   ("sky130_ef_io__disconnect_vccd_slice_5um").toList,
   ("sky130_ef_io__disconnect_vdda_slice_5um").toList]

/-- One supply net of the PIN pass (setup_io_lefs lines 570-581): pair the
`PIN <net>` lines with the `END <net>` lines, and inside each such interval
replace `PORT` by `PORT` plus a `CLASS CORE ;` line. -/
def pinPhaseNet (net : Str) (sl : List Str) : List Str :=
  let starts := idxsWhere (containsSub (sPinSp ++ net)) sl
  let stops := idxsWhere (containsSub (sEndSp ++ net)) sl
  (starts.zip stops).foldl (fun sl2 iv =>
    let portIdx := idxsWhere (containsSub sPort) ((sl2.drop iv.1).take (iv.2 - iv.1))
    portIdx.foldl (fun sl3 j => listModify (replaceAll sPort sPortRep) (iv.1 + j) sl3) sl2) sl

/-- Force one connect/disconnect spacer cell to `CLASS PAD SPACER` (lines
582-591): find the first `MACRO <cell>` line and rewrite the following line;
`IndexError` when the macro is absent or its header is the last line. -/
def spacerFix (cell : Str) (sl : List Str) : Except PErr (List Str) :=
  match (idxsWhere (containsSub (sMacroSp ++ cell)) sl).head? with
  | none => .error .indexError
  | some i =>
    match sl[i + 1]? with
    | none => .error .indexError
    | some line => .ok (sl.set (i + 1) (replaceAll sAreaio sSpacer line))

def spacerFixAll : List Str → List Str → Except PErr (List Str)
  | [], sl => .ok sl
  | cell :: rest, sl =>
    match spacerFix cell sl with
    | .error e => .error e
    | .ok sl2 => spacerFixAll rest sl2

/-- The IO-LEF patch job body (setup_io_lefs lines 565-622).  The trailing
broken-macro errata loop iterates over three empty lists, so it never runs and
contributes the identity. -/
def ioLefTransform (sl : List Str) : Except PErr (List Str) :=
  spacerFixAll spacerCells (pinPhaseNet sVssd1 (pinPhaseNet sVccd1 sl))

/-! ## Patch jobs over a filesystem -/

/-- A filesystem: path → file content as a list of line strings. -/
def FS := String → Option (List Str)

/-- Write one path of the filesystem. -/
def fsSet (fs : FS) (p : String) (v : List Str) : FS :=
  fun q => if q = p then some v else fs q

/-- A patch job: read the pristine source, transform it, and regenerate the
destination from scratch (`FileNotFoundError` when the source is missing). -/
def runPatchJob (srcP destP : String) (tf : List Str → Except PErr (List Str))
    (fs : FS) : Except PErr FS :=
  match fs srcP with
  | none => .error .fileNotFound
  | some content =>
    match tf content with
    | .error e => .error e
    | .ok out => .ok (fsSet fs destP out)

def cdlSrcPath : String := "$SKY130A/libs.ref/sky130_fd_sc_hd/cdl/sky130_fd_sc_hd.cdl"
def cdlDestPath : String := "cache/sky130_fd_sc_hd.cdl"
def libVerilogSrcPath : String := "$SKY130A/libs.ref/sky130_fd_sc_hd/verilog/sky130_fd_sc_hd.v"
def libVerilogDestPath : String := "cache/sky130_fd_sc_hd.v"
def primitivesSrcPath : String := "$SKY130A/libs.ref/sky130_fd_sc_hd/verilog/primitives.v"
def primitivesDestPath : String := "cache/primitives.v"
def techlefSrcPath : String := "$SKY130A/libs.ref/sky130_fd_sc_hd/techlef/sky130_fd_sc_hd__nom.tlef"
def techlefDestPath : String := "cache/sky130_fd_sc_hd__nom.tlef"
def ioLefSrcPath : String := "$SKY130A/libs.ref/sky130_fd_io/lef/sky130_ef_io.lef"
def ioLefDestPath : String := "cache/sky130_ef_io.lef"

def cdlJob (lvsTool : String) : FS → Except PErr FS :=
  runPatchJob cdlSrcPath cdlDestPath (fun src => .ok (cdlTransform lvsTool src))

def libVerilogJob : FS → Except PErr FS :=
  runPatchJob libVerilogSrcPath libVerilogDestPath libVerilogTransform

def primitivesJob : FS → Except PErr FS :=
  runPatchJob primitivesSrcPath primitivesDestPath (fun src => .ok (primitivesTransform src))

def techlefJob : FS → Except PErr FS :=
  runPatchJob techlefSrcPath techlefDestPath (fun src => .ok (techlefTransform src))

def ioLefJob : FS → Except PErr FS :=
  runPatchJob ioLefSrcPath ioLefDestPath ioLefTransform

/-! ## Extension Point Hook Registry -/

inductive HookPos where
  | before
  | after
deriving DecidableEq, Repr

/-- One registered hook: target stage, insertion position, action name. -/
structure HookAction where
  stage : String
  pos : HookPos
  action : String
deriving DecidableEq, Repr

/-- get_tech_par_hooks (lines 624-636): `hooks.get(tool_name, [])`. -/
def getTechParHooks (toolName : String) : List HookAction :=
  if toolName = "innovus" then
    [⟨"init_design", .after, "sky130_innovus_settings"⟩,
     ⟨"place_tap_cells", .before, "sky130_add_endcaps"⟩,
     ⟨"power_straps", .before, "sky130_connect_nets"⟩,
     ⟨"write_design", .before, "sky130_connect_nets2"⟩]
  else []

/-- get_tech_drc_hooks (lines 638-649): `hooks.get(tool_name, [])`. -/
def getTechDrcHooks (drcBlackboxSrams : Bool) (toolName : String) : List HookAction :=
  let calibreHooks :=
    if drcBlackboxSrams then [⟨"generate_drc_run_file", .after, "calibre_drc_blackbox_srams"⟩]
    else []
  let pegasusHooks :=
    if drcBlackboxSrams then [⟨"generate_drc_ctl_file", .after, "pegasus_drc_blackbox_srams"⟩]
    else []
  if toolName = "calibre" then calibreHooks
  else if toolName = "pegasus" then pegasusHooks
  else []

/-- get_tech_lvs_hooks (lines 651-666): `hooks.get(tool_name, [])`. -/
def getTechLvsHooks (useSram22 lvsBlackboxSrams : Bool) (toolName : String) : List HookAction :=
  let calibreHooks :=
    [⟨"generate_lvs_run_file", .after, "setup_calibre_lvs_deck"⟩] ++
    (if useSram22 then [⟨"generate_lvs_run_file", .after, "sram22_lvs_recognize_gates_all"⟩]
     else []) ++
    (if lvsBlackboxSrams then [⟨"generate_lvs_run_file", .after, "calibre_lvs_blackbox_srams"⟩]
     else [])
  let pegasusHooks :=
    if lvsBlackboxSrams then [⟨"generate_lvs_ctl_file", .after, "pegasus_lvs_blackbox_srams"⟩]
    else []
  if toolName = "calibre" then calibreHooks
  else if toolName = "pegasus" then pegasusHooks
  else []

/-! ## Shared lemmas about the string operations -/

theorem startsW_append_drop : ∀ pat s : Str, startsW pat s = true → pat ++ s.drop pat.length = s
  | [], s, _ => by simp
  | p :: ps, [], h => by simp [startsW] at h
  | p :: ps, c :: cs, h => by
    simp only [startsW, Bool.and_eq_true, decide_eq_true_eq] at h
    obtain ⟨rfl, h2⟩ := h
    simpa using startsW_append_drop ps cs h2

theorem startsW_length_le : ∀ pat s : Str, startsW pat s = true → pat.length ≤ s.length
  | [], s, _ => by simp
  | p :: ps, [], h => by simp [startsW] at h
  | p :: ps, c :: cs, h => by
    simp only [startsW, Bool.and_eq_true] at h
    simpa using startsW_length_le ps cs h.2

theorem replaceAllGo_self (pat : Str) :
    ∀ (fuel : Nat) (s : Str), s.length ≤ fuel → replaceAllGo pat pat fuel s = s := by
  intro fuel
  induction fuel with
  | zero =>
    intro s hs
    cases s with
    | nil => rfl
    | cons c t => simp at hs
  | succ f ih =>
    intro s hs
    cases s with
    | nil => rfl
    | cons c t =>
      simp only [replaceAllGo]
      by_cases hm : (startsW pat (c :: t) && !pat.isEmpty) = true
      · rw [if_pos hm]
        simp only [Bool.and_eq_true] at hm
        have hne : pat ≠ [] := by
          cases pat with
          | nil => simp at hm
          | cons a b => simp
        have hdrop : (t.drop (pat.length - 1)).length ≤ f := by
          have : t.length ≤ f := by simpa using hs
          have := List.length_drop (pat.length - 1) t
          omega
        rw [ih _ hdrop]
        have h4 := startsW_append_drop pat (c :: t) hm.1
        obtain ⟨m, hm2⟩ : ∃ m, pat.length = m + 1 := by
          cases pat with
          | nil => exact absurd rfl hne
          | cons a b => exact ⟨b.length, rfl⟩
        rw [hm2] at h4
        simpa [hm2, List.drop_succ_cons] using h4
      · rw [if_neg hm, ih t (by simpa using hs)]

/-- `s.replace(pat, pat)` is the identity. -/
theorem replaceAll_self (pat s : Str) : replaceAll pat pat s = s :=
  replaceAllGo_self pat s.length s le_rfl

/-! ## C10: hook lookup is total over tool identities -/

/-- C10: for every tool-name string that is not a registered key, each of
get_tech_par_hooks, get_tech_drc_hooks and get_tech_lvs_hooks returns the
empty list (the `hooks.get(tool_name, [])` default) rather than raising. -/
theorem hook_lookup_total (t : String) (hInn : t ≠ "innovus")
    (hCal : t ≠ "calibre") (hPeg : t ≠ "pegasus") :
    getTechParHooks t = [] ∧
    (∀ b : Bool, getTechDrcHooks b t = []) ∧
    (∀ s b : Bool, getTechLvsHooks s b t = []) := by
  refine ⟨?_, ?_, ?_⟩ <;>
    simp [getTechParHooks, getTechDrcHooks, getTechLvsHooks, hInn, hCal, hPeg]

/-- C10 witness: the unregistered tool name "magic" gets empty hook lists. -/
theorem hook_lookup_total_witness :
    getTechParHooks "magic" = [] ∧
    (∀ b : Bool, getTechDrcHooks b "magic" = []) ∧
    (∀ s b : Bool, getTechLvsHooks s b "magic" = []) :=
  hook_lookup_total "magic" (by decide) (by decide) (by decide)

/-! ## C3: CDL device renaming is plain substring replacement -/

/-- C3 counterexample: with the Calibre renaming table, the occurrence of
`nfet_01v8` inside the longer unrelated identifier `mynfet_01v8_wide` IS
rewritten by the line fix (plain `str.replace`), mangling the identifier to
`mynshort_wide` — refuting the claim that source identifiers occurring as
proper substrings of longer identifiers are never rewritten. -/
theorem cdl_rename_rewrites_substrings :
    cdlLineFix (cdlDeviceNames "hammer.lvs.calibre").1 (cdlDeviceNames "hammer.lvs.calibre").2
        (("Xq mynfet_01v8_wide a b\n").toList) = ("Xq mynshort_wide a b\n").toList ∧
    ("Xq mynshort_wide a b\n").toList ≠ ("Xq mynfet_01v8_wide a b\n").toList := by
  exact ⟨by decide, by decide⟩

/-- C3 amended: the device renaming is plain textual substring replacement,
not whole-token substitution.  Occurrences embedded in longer identifiers are
rewritten as well (Calibre table), and with the default table — where source
and replacement names coincide — every line is left unchanged. -/
theorem cdl_rename_substring_semantics :
    (∀ l : Str, cdlLineFix (cdlDeviceNames "hammer.lvs.other").1
        (cdlDeviceNames "hammer.lvs.other").2 l = l) ∧
    cdlLineFix (cdlDeviceNames "hammer.lvs.calibre").1 (cdlDeviceNames "hammer.lvs.calibre").2
        (("Xq mynfet_01v8_wide a b\n").toList) = ("Xq mynshort_wide a b\n").toList := by
  constructor
  · intro l
    show replaceAll sNfet sNfet (replaceAll sPfet sPfet l) = l
    rw [replaceAll_self, replaceAll_self]
  · decide

/-! ## C7: idempotence of the patch jobs -/

theorem runPatchJob_idem (srcP destP : String) (tf : List Str → Except PErr (List Str))
    (hNe : srcP ≠ destP) (fs fs2 : FS) (h : runPatchJob srcP destP tf fs = .ok fs2) :
    runPatchJob srcP destP tf fs2 = .ok fs2 := by
  unfold runPatchJob at h ⊢
  split at h
  · exact absurd h (by simp)
  · rename_i content hs
    split at h
    · exact absurd h (by simp)
    · rename_i out ht
      have hfs2 : fsSet fs destP out = fs2 := by
        simpa using h
      have hsrc : fs2 srcP = some content := by
        rw [← hfs2]
        show (if srcP = destP then some out else fs srcP) = some content
        rw [if_neg hNe, hs]
      have hset : fsSet fs2 destP out = fs2 := by
        funext q
        show (if q = destP then some out else fs2 q) = fs2 q
        by_cases hq : q = destP
        · rw [if_pos hq, ← hfs2, hq]
          show _ = (if destP = destP then some out else fs destP)
          rw [if_pos rfl]
        · rw [if_neg hq]
      simp [hsrc, ht, hset]

/-- C7: each of the five patch jobs (CDL, library Verilog, primitives,
tech-LEF, IO LEF) fully regenerates its destination from the pristine source
at a distinct path, so a second run over the resulting filesystem succeeds and
leaves the filesystem — in particular the destination bytes — identical. -/
theorem patch_jobs_idempotent (fs fs2 : FS) (lvsTool : String) :
    (cdlJob lvsTool fs = .ok fs2 → cdlJob lvsTool fs2 = .ok fs2) ∧
    (libVerilogJob fs = .ok fs2 → libVerilogJob fs2 = .ok fs2) ∧
    (primitivesJob fs = .ok fs2 → primitivesJob fs2 = .ok fs2) ∧
    (techlefJob fs = .ok fs2 → techlefJob fs2 = .ok fs2) ∧
    (ioLefJob fs = .ok fs2 → ioLefJob fs2 = .ok fs2) :=
  ⟨runPatchJob_idem _ _ _ (by decide) fs fs2,
   runPatchJob_idem _ _ _ (by decide) fs fs2,
   runPatchJob_idem _ _ _ (by decide) fs fs2,
   runPatchJob_idem _ _ _ (by decide) fs fs2,
   runPatchJob_idem _ _ _ (by decide) fs fs2⟩

def fsForCdl : FS := fun p =>
  if p = cdlSrcPath then some [("Xp a b c pfet_01v8_hvt w=1\n").toList] else none

def fsForLibVerilog : FS := fun p =>
  if p = libVerilogSrcPath then
    some [("`ifndef SKY130_FD_SC_HD__LPFLOW_BLEEDER_1_TIMING_V\n").toList,
          ("specify\n").toList,
          ("(SHORT => VPWR) = (0:0:0,0:0:0,0:0:0,0:0:0,0:0:0,0:0:0);\n").toList,
          ("endspecify\n").toList,
          ("`endif\n").toList]
  else none

def fsForPrimitives : FS := fun p =>
  if p = primitivesSrcPath then some [("`default_nettype none\n").toList] else none

def fsForTechlef : FS := fun p =>
  if p = techlefSrcPath then some [("END pwell\n").toList] else none

def fsForIoLef : FS := fun p =>
  if p = ioLefSrcPath then
    some [("MACRO sky130_ef_io__connect_vcchib_vccd_and_vswitch_vddio_slice_20um\n").toList,
          ("  CLASS AREAIO ;\n").toList,
          ("MACRO sky130_ef_io__disconnect_vccd_slice_5um\n").toList,
          ("  CLASS AREAIO ;\n").toList,
          ("MACRO sky130_ef_io__disconnect_vdda_slice_5um\n").toList,
          ("  CLASS AREAIO ;\n").toList]
  else none

/-- C7 witness: each job, run on a small concrete filesystem, succeeds, and by
the idempotence theorem the second run reproduces the same filesystem. -/
theorem patch_jobs_idempotent_witness :
    (∃ fs2, cdlJob "hammer.lvs.calibre" fsForCdl = .ok fs2 ∧
      cdlJob "hammer.lvs.calibre" fs2 = .ok fs2) ∧
    (∃ fs2, libVerilogJob fsForLibVerilog = .ok fs2 ∧ libVerilogJob fs2 = .ok fs2) ∧
    (∃ fs2, primitivesJob fsForPrimitives = .ok fs2 ∧ primitivesJob fs2 = .ok fs2) ∧
    (∃ fs2, techlefJob fsForTechlef = .ok fs2 ∧ techlefJob fs2 = .ok fs2) ∧
    (∃ fs2, ioLefJob fsForIoLef = .ok fs2 ∧ ioLefJob fs2 = .ok fs2) :=
  ⟨⟨_, rfl, (patch_jobs_idempotent fsForCdl _ "hammer.lvs.calibre").1 rfl⟩,
   ⟨_, rfl, (patch_jobs_idempotent fsForLibVerilog _ "x").2.1 rfl⟩,
   ⟨_, rfl, (patch_jobs_idempotent fsForPrimitives _ "x").2.2.1 rfl⟩,
   ⟨_, rfl, (patch_jobs_idempotent fsForTechlef _ "x").2.2.2.1 rfl⟩,
   ⟨_, rfl, (patch_jobs_idempotent fsForIoLef _ "x").2.2.2.2 rfl⟩⟩

/-! ## C9: the clock-gating write is gated on the sky130_scl family -/

/-- C9: when the configured stdcell family is sky130_scl, a completed
gen_config returns the store with exactly the one write
`synthesis.clock_gating_mode := ""`; when the family is sky130_fd_sc_hd, the
store is returned unchanged — descriptor generation makes no other
configuration write. -/
theorem genConfig_store_effect (ioF hdF sclF : List Str) (store : Store)
    (out : TechDescr × Store) :
    (store kStdcellLibrary = some "sky130_scl" →
      genConfig ioF hdF sclF store = .ok out →
      out.2 = storeSet store kClockGatingMode "") ∧
    (store kStdcellLibrary = some "sky130_fd_sc_hd" →
      genConfig ioF hdF sclF store = .ok out →
      out.2 = store) := by
  constructor
  · intro hKey hRun
    unfold genConfig at hRun
    rw [hKey] at hRun
    simp only [String.reduceEq, reduceIte] at hRun
    split at hRun
    · exact absurd hRun (by simp)
    · split at hRun
      · exact absurd hRun (by simp)
      · have := Except.ok.inj hRun
        rw [← this]
  · intro hKey hRun
    unfold genConfig at hRun
    rw [hKey] at hRun
    simp only [String.reduceEq, reduceIte] at hRun
    split at hRun
    · exact absurd hRun (by simp)
    · split at hRun
      · exact absurd hRun (by simp)
      · have := Except.ok.inj hRun
        rw [← this]

def storeSclOnly : Store :=
  fun k => if k = kStdcellLibrary then some "sky130_scl" else none

def storeHdOnly : Store :=
  fun k => if k = kStdcellLibrary then some "sky130_fd_sc_hd" else none

/-- C9 witness: concrete completed runs for both families. -/
theorem genConfig_store_effect_witness :
    (∃ out, genConfig [] [] [] storeSclOnly = .ok out ∧
      out.2 = storeSet storeSclOnly kClockGatingMode "") ∧
    (∃ out, genConfig [] [] [] storeHdOnly = .ok out ∧ out.2 = storeHdOnly) :=
  ⟨⟨_, rfl, (genConfig_store_effect [] [] [] storeSclOnly _).1 rfl rfl⟩,
   ⟨_, rfl, (genConfig_store_effect [] [] [] storeHdOnly _).2 rfl rfl⟩⟩
/-! ## C2: absence of the malformed timing-arc expression -/

def c2AbsentInput : List Str :=
  [("`ifndef SKY130_FD_SC_HD__LPFLOW_BLEEDER_1_TIMING_V\n").toList,
   ("specify\n").toList, ("endspecify\n").toList, ("`endif\n").toList]

def c2OutsideInput : List Str :=
  [("`ifndef SKY130_FD_SC_HD__LPFLOW_BLEEDER_1_TIMING_V\n").toList,
   ("specify\n").toList, ("endspecify\n").toList, ("`endif\n").toList,
   ("(SHORT => VPWR) = (0:0:0,0:0:0,0:0:0,0:0:0,0:0:0,0:0:0);\n").toList]

/-- C2 (code bug): on a source whose sentinel block no longer contains the
malformed timing-arc expression, the excision does not no-op as specified: the
first-match subscript `[idx for idx in search_range if broken_substr in
sl[idx]][0]` is taken over an empty list and raises `IndexError` (the
`broken_specify_idx = len(sl)-1` default in the source is dead, being
overwritten before use).  By contrast the in-source skip path — malformed
expression present but after the closing directive — does leave the lines
untouched, confirming that a graceful no-op was the intent. -/
theorem excise_absent_pattern_raises :
    exciseSpecify c2AbsentInput = .error .indexError ∧
    exciseSpecify c2OutsideInput = .ok c2OutsideInput :=
  ⟨rfl, rfl⟩

/-! ## C5: delayed-net harmonization -/

def c5Decl : Str := ("  wire SLEEP1B_delayed;\n").toList
def c5Ref1 : Str := ("  buf b1 (X, SLEEP1_B_delayed);\n").toList
def c5Ref2 : Str := ("  buf b2 (Y, SLEEP1B_delayed);\n").toList
def c5Ref3 : Str := ("  buf b3 (Z, Sleep1Bdelay);\n").toList
def c5Ref1Fixed : Str := ("  buf b1 (X, SLEEP1B_delayed);\n").toList

/-- C5 counterexample: after the declaration `wire SLEEP1B_delayed;`, the
reference spelled `Sleep1Bdelay` is NOT rewritten to the canonical spelling —
the harmonization only rewrites spellings matched by the case-sensitive
`SLEEP.*?B.*?delayed` capture, so the claimed output (all three references
canonical) is wrong: the third line is returned unchanged and does not contain
`SLEEP1B_delayed`. -/
theorem harmonize_case_variant_unchanged :
    harmonize [c5Decl, c5Ref1, c5Ref2, c5Ref3] =
      .ok [c5Decl, c5Ref1Fixed, c5Ref2, c5Ref3] ∧
    containsSub ("SLEEP1B_delayed").toList c5Ref3 = false :=
  ⟨rfl, by decide⟩

/-- C5 amended: in the declaration's scope, exactly the references matching the
capture pattern `SLEEP…B…delayed` are rewritten to the canonical spelling:
`SLEEP1_B_delayed` becomes `SLEEP1B_delayed`, the already-canonical reference
stays, and `Sleep1Bdelay` (which the pattern does not match — wrong case and a
truncated `delay`) is left as is. -/
theorem harmonize_pattern_variants_only :
    harmonize [c5Decl, c5Ref1, c5Ref2, c5Ref3] =
      .ok [c5Decl, c5Ref1Fixed, c5Ref2, c5Ref3] ∧
    findCaptures c5Ref1 = [("SLEEP1_B_delayed").toList] ∧
    findCaptures c5Ref3 = [] :=
  ⟨rfl, rfl, rfl⟩

/-! ## C6: cross-corner filtering -/

/-- C6 counterexample: the claim's accepted example `cellname_ff_ff_n40C_1v95`
does not yield a record: it passes the cross-corner filter but then the
secondary-voltage subscript `temp_volt[2]` raises `IndexError` (the example
has only a temperature and one voltage token). -/
theorem crosscorner_example_not_accepted :
    processIoCorner ("cellname_ff_ff_n40C_1v95").toList = .error .indexError :=
  rfl

/-- C6 amended: when the process token appears twice, disagreeing occurrences
are discarded with no record (in general); agreeing occurrences pass the
cross-corner filter but a record is only produced once the remaining
temperature/voltage stages succeed: the claim's own example
`cellname_ff_ff_n40C_1v95` fails with `IndexError` for want of a secondary
voltage token, while the full filename `cellname_ff_ff_n40C_1v95_3v30` is
accepted. -/
theorem crosscorner_agreement :
    (∀ fname : Str, containsSub sNointpwr fname = false →
      crossRejectIo (ioProcess fname) = true → processIoCorner fname = .ok none) ∧
    processIoCorner ("cellname_ff_ss_n40C_1v95").toList = .ok none ∧
    processIoCorner ("cellname_ff_ff_n40C_1v95_3v30").toList =
      .ok (some (ioEntryFor ("cellname").toList ("cellname_ff_ff_n40C_1v95_3v30").toList
        sFast ("-40 C").toList ("1.95 V").toList)) ∧
    processIoCorner ("cellname_ff_ff_n40C_1v95").toList = .error .indexError := by
  refine ⟨?_, rfl, rfl, rfl⟩
  intro fname h1 h2
  unfold processIoCorner
  simp [h1, h2]

/-- C6 witness: a concrete mismatched cross-corner filename is discarded. -/
theorem crosscorner_agreement_witness :
    processIoCorner ("cell_ff_ss_025C_1v80_3v30").toList = .ok none :=
  crosscorner_agreement.1 (("cell_ff_ss_025C_1v80_3v30").toList) (by decide) (by decide)

/-! ## C4: speed-class mapping -/

def c4HdFile : Str := ("sky130_fd_sc_hd__xx_025C_1v80.lib").toList

/-- C4 counterexample: in the stdcell (double-underscore) dialect an
unrecognized 2-letter process code is NOT rejected: the file
`sky130_fd_sc_hd__xx_025C_1v80.lib` produces a record whose speed class is the
unmapped code `xx`, passed straight through. -/
theorem hd_unrecognized_code_passed_through :
    processHdCorner [] c4HdFile =
      .ok (some (hdEntryFor c4HdFile ("xx").toList ("025 C").toList ("1.80 V").toList)) ∧
    (hdEntryFor c4HdFile ("xx").toList ("025 C").toList ("1.80 V").toList).cornerNmos =
      ("xx").toList :=
  ⟨rfl, rfl⟩

/-- C4 amended: the ff→fast, tt→typical, ss→slow mapping is a pure function in
both dialects, but unrecognized codes are rejected only by the IO dialect
(where the corner-token regex finds no match and the first-match `next(...)`
raises `StopIteration`); the stdcell dialect neither rejects nor defaults:
any other code falls through the if-chain and is recorded verbatim as the
speed class. -/
theorem speed_mapping_and_rejection :
    speedSeq sFF = sFast ∧ speedSeq sTT = sTypical ∧ speedSeq sSS = sSlow ∧
    (∀ s : Str, s ≠ sFF → s ≠ sTT → s ≠ sSS → speedSeq s = s) ∧
    processIoCorner ("cellname_xx_025C_1v80_3v30").toList = .error .stopIteration ∧
    (∃ e, processHdCorner [] c4HdFile = .ok (some e) ∧ e.cornerNmos = ("xx").toList) := by
  refine ⟨rfl, rfl, rfl, ?_, rfl, ⟨_, rfl, rfl⟩⟩
  intro s hf ht hs
  simp [speedSeq, hf, ht, hs]

/-- C4 witness: the unrecognized code xx falls through the mapping unchanged. -/
theorem speed_mapping_and_rejection_witness :
    speedSeq (("xx").toList) = ("xx").toList :=
  speed_mapping_and_rejection.2.2.2.1 (("xx").toList) (by decide) (by decide) (by decide)

/-! ## C1: secondary-voltage filtering -/

/-- C1 counterexample: the spec inverts the filter.  The IO corner file whose
secondary voltage token is `1v65` (starting with `1`) is EXCLUDED from the
output set, and the file whose secondary token is `3v30` (not starting with
`1`) is retained and yields a record. -/
theorem io_secondary_voltage_inverted :
    processIoCorner ("sky130_fd_io__top_gpiov2_tt_025C_1v80_1v65.lib").toList = .ok none ∧
    (∃ e, processIoCorner ("sky130_fd_io__top_gpiov2_tt_025C_1v80_3v30.lib").toList =
      .ok (some e)) :=
  ⟨rfl, ⟨_, rfl⟩⟩

/-- C1 amended: among IO corner filenames that pass the earlier stages and
reach the voltage filter (not an internal-power-absent file, cross-corner
check passed, a corner token found, and temperature, primary and secondary
voltage tokens present), the file is EXCLUDED iff its secondary voltage-class
token starts with `1` — or, when a fourth token exists, that token starts
with `1`; equivalently a record is produced iff neither starts with `1`. -/
theorem io_secondary_voltage_filter (fname sp tv0 tv1 tv2 : Str)
    (hNo : containsSub sNointpwr fname = false)
    (hCross : crossRejectIo (ioProcess fname) = false)
    (hSp : firstNonNone (ioProcess fname) = some sp)
    (h0 : (ioTempVolt fname)[0]? = some tv0)
    (h1 : (ioTempVolt fname)[1]? = some tv1)
    (h2 : (ioTempVolt fname)[2]? = some tv2) :
    (∃ e, processIoCorner fname = .ok (some e)) ↔
      (startsW sOne tv2 = false ∧
        ((ioTempVolt fname).length = 4 →
          ∀ tv3, (ioTempVolt fname)[3]? = some tv3 → startsW sOne tv3 = false)) := by
  unfold processIoCorner
  simp only [hNo, Bool.false_eq_true, if_false, hCross, hSp, h0, h1, h2]
  by_cases hs2 : startsW sOne tv2 = true
  · rw [if_pos hs2]
    constructor
    · rintro ⟨e, he⟩
      exact absurd he (by simp)
    · rintro ⟨ha, _⟩
      rw [hs2] at ha
      exact absurd ha (by simp)
  · have hs2f : startsW sOne tv2 = false := by simpa using hs2
    rw [if_neg hs2]
    by_cases hlen : (ioTempVolt fname).length = 4
    · have h3lt : 3 < (ioTempVolt fname).length := by omega
      have h3 : (ioTempVolt fname)[3]? = some ((ioTempVolt fname)[3]) :=
        List.getElem?_eq_getElem h3lt
      rw [if_pos hlen, h3]
      dsimp only
      by_cases hs3 : startsW sOne ((ioTempVolt fname)[3]) = true
      · rw [if_pos hs3]
        constructor
        · rintro ⟨e, he⟩
          exact absurd he (by simp)
        · rintro ⟨_, hb⟩
          have := hb hlen _ rfl
          rw [hs3] at this
          exact absurd this (by simp)
      · rw [if_neg hs3]
        constructor
        · intro _
          refine ⟨hs2f, fun _ tv3 h3x => ?_⟩
          have := Option.some.inj h3x
          rw [← this]
          simpa using hs3
        · intro _
          exact ⟨_, rfl⟩
    · rw [if_neg hlen]
      constructor
      · intro _
        exact ⟨hs2f, fun hl => absurd hl hlen⟩
      · intro _
        exact ⟨_, rfl⟩

/-- C1 witness: a concrete filename with secondary token 3v30 satisfies the
hypotheses, and by the filter theorem yields a record. -/
theorem io_secondary_voltage_filter_witness :
    ∃ e, processIoCorner ("sky130_fd_io__top_gpio_tt_025C_1v80_3v30.lib").toList =
      .ok (some e) :=
  (io_secondary_voltage_filter (("sky130_fd_io__top_gpio_tt_025C_1v80_3v30.lib").toList)
      sTT (("025C").toList) (("1v80").toList) (("3v30").toList)
      (by decide) (by decide) (by decide) (by decide) (by decide) (by decide)).mpr
    (by constructor
        · decide
        · intro hl
          exact absurd hl (by decide))

/-! ## C8: PORT-count machinery -/

theorem startsW_append_of_le : ∀ pat x : Str, pat.length ≤ x.length →
    ∀ y, startsW pat (x ++ y) = startsW pat x
  | [], x, _, y => rfl
  | p :: ps, [], h, y => by simp at h
  | p :: ps, c :: cs, h, y => by
    show (decide (p = c) && startsW ps (cs ++ y)) = (decide (p = c) && startsW ps cs)
    rw [startsW_append_of_le ps cs (by simpa using h) y]

theorem mem_of_startsW_append_long : ∀ pat x y : Str, startsW pat (x ++ y) = true →
    x.length < pat.length → ∀ c ∈ x, c ∈ pat
  | pat, [], y, _, _, c, hc => by simp at hc
  | [], a :: x2, y, h, hlen, c, hc => by simp at hlen
  | p :: ps, a :: x2, y, h, hlen, c, hc => by
    simp only [List.cons_append, startsW, Bool.and_eq_true, decide_eq_true_eq] at h
    rcases List.mem_cons.mp hc with rfl | hc2
    · rw [← h.1]; exact List.mem_cons_self _ _
    · exact List.mem_cons_of_mem _
        (mem_of_startsW_append_long ps x2 y h.2 (by simpa using hlen) c hc2)

theorem getLast?_mem_self : ∀ (l : Str) (a : Char), l.getLast? = some a → a ∈ l
  | [], a, h => by simp at h
  | [c], a, h => by
    simp only [List.getLast?_singleton, Option.some.injEq] at h
    simp [h]
  | c :: d :: t, a, h => by
    rw [List.getLast?_cons_cons] at h
    exact List.mem_cons_of_mem _ (getLast?_mem_self (d :: t) a h)

theorem countSub_append_newline (pat : Str) (hne : pat ≠ []) (hnl : Char.ofNat 10 ∉ pat) :
    ∀ x y : Str, x.getLast? = some (Char.ofNat 10) →
      countSub pat (x ++ y) = countSub pat x + countSub pat y
  | [], y, hx => by simp at hx
  | [c], y, hx => by
    simp only [List.getLast?_singleton, Option.some.injEq] at hx
    obtain ⟨p, ps, rfl⟩ : ∃ p ps, pat = p :: ps := by
      cases pat with
      | nil => exact absurd rfl hne
      | cons p ps => exact ⟨p, ps, rfl⟩
    have hp : p ≠ Char.ofNat 10 := fun hEq => hnl (hEq ▸ List.mem_cons_self _ _)
    have h1 : startsW (p :: ps) (c :: y) = (decide (p = c) && startsW ps y) := rfl
    have h2 : (p = c) = False := by
      rw [hx]
      exact eq_false hp
    simp [countSub, h1, h2, startsW]
  | c :: d :: t, y, hx => by
    rw [List.getLast?_cons_cons] at hx
    have ih := countSub_append_newline pat hne hnl (d :: t) y hx
    have hb : startsW pat ((c :: d :: t) ++ y) = startsW pat (c :: d :: t) := by
      by_cases hl : pat.length ≤ (c :: d :: t).length
      · exact startsW_append_of_le pat (c :: d :: t) hl y
      · have h1 : startsW pat (c :: d :: t) = false := by
          cases hcase : startsW pat (c :: d :: t) with
          | false => rfl
          | true => exact absurd (startsW_length_le pat _ hcase) hl
        have h2 : startsW pat ((c :: d :: t) ++ y) = false := by
          cases hcase : startsW pat ((c :: d :: t) ++ y) with
          | false => rfl
          | true =>
            have := mem_of_startsW_append_long pat (c :: d :: t) y hcase
              (by omega) (Char.ofNat 10)
              (getLast?_mem_self _ _ (by rw [List.getLast?_cons_cons]; exact hx))
            exact absurd this hnl
        rw [h1, h2]
    have e1 : countSub pat ((c :: d :: t) ++ y)
        = (if startsW pat ((c :: d :: t) ++ y) = true then 1 else 0)
          + countSub pat ((d :: t) ++ y) := rfl
    have e2 : countSub pat (c :: d :: t)
        = (if startsW pat (c :: d :: t) = true then 1 else 0) + countSub pat (d :: t) := rfl
    rw [e1, e2, hb, ih]
    omega

theorem countSub_flatten (pat : Str) (hne : pat ≠ []) (hnl : Char.ofNat 10 ∉ pat) :
    ∀ sl : List Str, (∀ l ∈ sl, l.getLast? = some (Char.ofNat 10)) →
      countSub pat (joinStr sl) = (sl.map (countSub pat)).sum
  | [], _ => rfl
  | l :: rest, h => by
    have h1 : joinStr (l :: rest) = l ++ joinStr rest := rfl
    rw [h1, countSub_append_newline pat hne hnl l (joinStr rest)
      (h l (List.mem_cons_self _ _))]
    simp only [List.map_cons, List.sum_cons]
    rw [countSub_flatten pat hne hnl rest (fun x hx => h x (List.mem_cons_of_mem _ hx))]

def ortTail : Str := ("ORT").toList

def repTail : Str := ("\n      CLASS CORE ;").toList

theorem countSub_port_front (z : Str) : countSub sPort (sPort ++ z) = 1 + countSub sPort z := by
  have h0 : startsW sPort ('P' :: 'O' :: 'R' :: 'T' :: z) = true := rfl
  have h1 : startsW sPort ('O' :: 'R' :: 'T' :: z) = false := rfl
  have h2 : startsW sPort ('R' :: 'T' :: z) = false := rfl
  have h3 : startsW sPort ('T' :: z) = false := rfl
  show countSub sPort ('P' :: 'O' :: 'R' :: 'T' :: z) = 1 + countSub sPort z
  simp [countSub, h0, h1, h2, h3]

theorem countSub_port_skip (w : Str) (hw : 'P' ∉ w) (z : Str) :
    countSub sPort (w ++ z) = countSub sPort z := by
  induction w with
  | nil => rfl
  | cons c w2 ih =>
    have hcP : c ≠ 'P' := fun hEq => hw (hEq ▸ List.mem_cons_self _ _)
    have hc : startsW sPort (c :: (w2 ++ z)) = false := by
      show (decide ('P' = c) && startsW ortTail (w2 ++ z)) = false
      have : decide ('P' = c) = false := decide_eq_false (fun hEq => hcP hEq.symm)
      rw [this, Bool.false_and]
    have e1 : countSub sPort ((c :: w2) ++ z)
        = (if startsW sPort (c :: (w2 ++ z)) = true then 1 else 0)
          + countSub sPort (w2 ++ z) := rfl
    rw [e1, hc, ih (fun hm => hw (List.mem_cons_of_mem _ hm))]
    simp

theorem countSub_portRep_front (z : Str) :
    countSub sPort (sPortRep ++ z) = 1 + countSub sPort z := by
  have hsplit : sPortRep ++ z = sPort ++ (repTail ++ z) := by
    show sPortRep ++ z = (sPort ++ repTail) ++ z
    rfl
  rw [hsplit, countSub_port_front, countSub_port_skip repTail (by decide)]

theorem countSub_spacer_front (z : Str) :
    countSub sPort (sSpacer ++ z) = countSub sPort z := by
  have h0 : startsW sPort ('S' :: 'P' :: 'A' :: 'C' :: 'E' :: 'R' :: z) = false := rfl
  have h1 : startsW sPort ('P' :: 'A' :: 'C' :: 'E' :: 'R' :: z) = false := rfl
  have h2 : startsW sPort ('A' :: 'C' :: 'E' :: 'R' :: z) = false := rfl
  have h3 : startsW sPort ('C' :: 'E' :: 'R' :: z) = false := rfl
  have h4 : startsW sPort ('E' :: 'R' :: z) = false := rfl
  have h5 : startsW sPort ('R' :: z) = false := rfl
  show countSub sPort ('S' :: 'P' :: 'A' :: 'C' :: 'E' :: 'R' :: z) = countSub sPort z
  simp [countSub, h0, h1, h2, h3, h4, h5]

theorem countSub_port_of_startsW (s : Str) (h : startsW sPort s = true) :
    countSub sPort s = 1 + countSub sPort (s.drop 4) := by
  have hdec := startsW_append_drop sPort s h
  have hlen : sPort.length = 4 := rfl
  rw [hlen] at hdec
  conv_lhs => rw [← hdec]
  rw [countSub_port_front]

theorem startsW_cons (a b : Char) (q x : Str) :
    startsW (a :: q) (b :: x) = (decide (a = b) && startsW q x) := rfl

/-- Heads of the replacement pairs never collide with the `ORT` continuation
characters, so pattern checks for a pattern starting after the replaced
region are unaffected by the replacement scan. -/
theorem startsW_ort_replaceAllGo (pat rep : Str) (p r : Char) (ps rs : Str)
    (hp : pat = p :: ps) (hr : rep = r :: rs)
    (hpO : p ∉ ortTail) (hrO : r ∉ ortTail) :
    ∀ (f : Nat) (s q : Str), s.length ≤ f → (∀ a ∈ q, a ∈ ortTail) →
      startsW q (replaceAllGo pat rep f s) = startsW q s := by
  subst hp
  subst hr
  intro f
  induction f with
  | zero =>
    intro s q hs hq
    cases s with
    | nil => rfl
    | cons c t => simp at hs
  | succ f ih =>
    intro s q hs hq
    cases s with
    | nil => rfl
    | cons c t =>
      simp only [replaceAllGo]
      by_cases hm : startsW (p :: ps) (c :: t) = true
      · have hcond : (startsW (p :: ps) (c :: t) && !(p :: ps).isEmpty) = true := by
          rw [hm]
          rfl
        rw [if_pos hcond]
        have hc : c = p := by
          rw [startsW_cons] at hm
          simp only [Bool.and_eq_true, decide_eq_true_eq] at hm
          exact hm.1.symm
        cases q with
        | nil => rfl
        | cons a q2 =>
          have ha : a ∈ ortTail := hq a (List.mem_cons_self _ _)
          have har : a ≠ r := fun hEq => hrO (hEq ▸ ha)
          have hap : a ≠ p := fun hEq => hpO (hEq ▸ ha)
          rw [List.cons_append, startsW_cons, startsW_cons,
            decide_eq_false har, decide_eq_false (hc ▸ hap), Bool.false_and, Bool.false_and]
      · have hmf : startsW (p :: ps) (c :: t) = false := by simpa using hm
        have hcond : (startsW (p :: ps) (c :: t) && !(p :: ps).isEmpty) = false := by
          rw [hmf, Bool.false_and]
        rw [hcond]
        simp only [Bool.false_eq_true, if_false]
        cases q with
        | nil => rfl
        | cons a q2 =>
          rw [startsW_cons, startsW_cons,
            ih t q2 (by simpa using hs) (fun b hb => hq b (List.mem_cons_of_mem _ hb))]

theorem countSub_port_go_port : ∀ (f : Nat) (s : Str), s.length ≤ f →
    countSub sPort (replaceAllGo sPort sPortRep f s) = countSub sPort s := by
  intro f
  induction f with
  | zero =>
    intro s hs
    cases s with
    | nil => rfl
    | cons c t => simp at hs
  | succ f ih =>
    intro s hs
    cases s with
    | nil => rfl
    | cons c t =>
      simp only [replaceAllGo]
      by_cases hm : startsW sPort (c :: t) = true
      · have hcond : (startsW sPort (c :: t) && !sPort.isEmpty) = true := by
          rw [hm]
          rfl
        rw [if_pos hcond, countSub_portRep_front,
          ih _ (by
            have := List.length_drop (sPort.length - 1) t
            have ht : t.length ≤ f := by simpa using hs
            omega),
          countSub_port_of_startsW _ hm]
        rfl
      · have hmf : startsW sPort (c :: t) = false := by simpa using hm
        have hcond : (startsW sPort (c :: t) && !sPort.isEmpty) = false := by
          rw [hmf, Bool.false_and]
        rw [hcond]
        simp only [Bool.false_eq_true, if_false]
        have hb : startsW sPort (c :: replaceAllGo sPort sPortRep f t)
            = startsW sPort (c :: t) := by
          show (decide ('P' = c) && startsW ortTail (replaceAllGo sPort sPortRep f t))
              = (decide ('P' = c) && startsW ortTail t)
          rw [startsW_ort_replaceAllGo sPort sPortRep 'P' 'P' (("ORT").toList)
            (("ORT\n      CLASS CORE ;").toList) rfl rfl (by decide) (by decide) f t ortTail
            (by simpa using hs) (fun a ha => ha)]
        have e1 : countSub sPort (c :: replaceAllGo sPort sPortRep f t)
            = (if startsW sPort (c :: replaceAllGo sPort sPortRep f t) = true then 1 else 0)
              + countSub sPort (replaceAllGo sPort sPortRep f t) := rfl
        have e2 : countSub sPort (c :: t)
            = (if startsW sPort (c :: t) = true then 1 else 0) + countSub sPort t := rfl
        rw [e1, e2, hb, ih t (by simpa using hs)]

theorem countSub_port_go_areaio : ∀ (f : Nat) (s : Str), s.length ≤ f →
    countSub sPort (replaceAllGo sAreaio sSpacer f s) = countSub sPort s := by
  intro f
  induction f with
  | zero =>
    intro s hs
    cases s with
    | nil => rfl
    | cons c t => simp at hs
  | succ f ih =>
    intro s hs
    cases s with
    | nil => rfl
    | cons c t =>
      simp only [replaceAllGo]
      by_cases hm : startsW sAreaio (c :: t) = true
      · have hcond : (startsW sAreaio (c :: t) && !sAreaio.isEmpty) = true := by
          rw [hm]
          rfl
        rw [if_pos hcond, countSub_spacer_front,
          ih _ (by
            have := List.length_drop (sAreaio.length - 1) t
            have ht : t.length ≤ f := by simpa using hs
            omega)]
        have hdec := startsW_append_drop sAreaio (c :: t) hm
        conv_rhs => rw [← hdec]
        rw [countSub_port_skip sAreaio (by decide)]
        rfl
      · have hmf : startsW sAreaio (c :: t) = false := by simpa using hm
        have hcond : (startsW sAreaio (c :: t) && !sAreaio.isEmpty) = false := by
          rw [hmf, Bool.false_and]
        rw [hcond]
        simp only [Bool.false_eq_true, if_false]
        have hb : startsW sPort (c :: replaceAllGo sAreaio sSpacer f t)
            = startsW sPort (c :: t) := by
          show (decide ('P' = c) && startsW ortTail (replaceAllGo sAreaio sSpacer f t))
              = (decide ('P' = c) && startsW ortTail t)
          rw [startsW_ort_replaceAllGo sAreaio sSpacer 'A' 'S' (("REAIO").toList)
            (("PACER").toList) rfl rfl (by decide) (by decide) f t ortTail
            (by simpa using hs) (fun a ha => ha)]
        have e1 : countSub sPort (c :: replaceAllGo sAreaio sSpacer f t)
            = (if startsW sPort (c :: replaceAllGo sAreaio sSpacer f t) = true then 1 else 0)
              + countSub sPort (replaceAllGo sAreaio sSpacer f t) := rfl
        have e2 : countSub sPort (c :: t)
            = (if startsW sPort (c :: t) = true then 1 else 0) + countSub sPort t := rfl
        rw [e1, e2, hb, ih t (by simpa using hs)]

theorem getLast?_drop_ne : ∀ (n : Nat) (l : Str), l.drop n ≠ [] →
    (l.drop n).getLast? = l.getLast?
  | 0, l, _ => rfl
  | n + 1, [], h => absurd rfl h
  | n + 1, c :: t, h => by
    have hd : (c :: t).drop (n + 1) = t.drop n := rfl
    rw [hd] at h ⊢
    have ht : t ≠ [] := by
      intro hEq
      rw [hEq] at h
      exact h (List.drop_nil)
    rw [getLast?_drop_ne n t h]
    cases t with
    | nil => exact absurd rfl ht
    | cons d t2 => rw [List.getLast?_cons_cons]

theorem ne_nil_of_getLast? (l : Str) (a : Char) (h : l.getLast? = some a) : l ≠ [] := by
  intro hEq
  rw [hEq] at h
  simp at h

theorem getLast?_replaceAllGo (pat rep : Str) (hpne : pat ≠ [])
    (hlast : pat.getLast? ≠ some (Char.ofNat 10)) :
    ∀ (f : Nat) (s : Str), s.length ≤ f → s.getLast? = some (Char.ofNat 10) →
      (replaceAllGo pat rep f s).getLast? = some (Char.ofNat 10) := by
  intro f
  induction f with
  | zero =>
    intro s hs hsl
    cases s with
    | nil => simpa using hsl
    | cons c t => simp at hs
  | succ f ih =>
    intro s hs hsl
    cases s with
    | nil => simpa using hsl
    | cons c t =>
      simp only [replaceAllGo]
      by_cases hm : (startsW pat (c :: t) && !pat.isEmpty) = true
      · rw [if_pos hm]
        have hm1 : startsW pat (c :: t) = true := by
          simp only [Bool.and_eq_true] at hm
          exact hm.1
        have hplen := startsW_length_le pat _ hm1
        have hppos : 0 < pat.length := List.length_pos.mpr hpne
        have hrest_eq : t.drop (pat.length - 1) = (c :: t).drop pat.length := by
          obtain ⟨m, hme⟩ : ∃ m, pat.length = m + 1 := ⟨pat.length - 1, by omega⟩
          rw [hme]
          simp [List.drop_succ_cons]
        by_cases hre : t.drop (pat.length - 1) = []
        · exfalso
          have hlen2 : (c :: t).length ≤ pat.length := by
            have hld := List.length_drop (pat.length - 1) t
            rw [hre] at hld
            simp only [List.length_nil] at hld
            have : t.length ≤ pat.length - 1 := by omega
            simp only [List.length_cons]
            omega
          have heq := startsW_append_drop pat _ hm1
          have hdropnil : (c :: t).drop pat.length = [] :=
            List.drop_eq_nil_of_le hlen2
          rw [hdropnil, List.append_nil] at heq
          exact hlast (heq ▸ hsl)
        · have hrg : (t.drop (pat.length - 1)).getLast? = some (Char.ofNat 10) := by
            rw [hrest_eq] at hre ⊢
            rw [getLast?_drop_ne _ _ hre]
            exact hsl
          have hlenf : (t.drop (pat.length - 1)).length ≤ f := by
            have hld := List.length_drop (pat.length - 1) t
            have htf : t.length ≤ f := by simpa using hs
            omega
          have hgo := ih _ hlenf hrg
          have hne2 : replaceAllGo pat rep f (t.drop (pat.length - 1)) ≠ [] :=
            ne_nil_of_getLast? _ _ hgo
          rw [List.getLast?_append_of_ne_nil rep hne2]
          exact hgo
      · rw [if_neg hm]
        cases t with
        | nil =>
          have hgonil : replaceAllGo pat rep f [] = [] := by cases f <;> rfl
          rw [hgonil]
          exact hsl
        | cons d t2 =>
          have hsl2 : (d :: t2).getLast? = some (Char.ofNat 10) := by
            rw [← List.getLast?_cons_cons (a := c)]
            exact hsl
          have hgo := ih (d :: t2) (by simpa using hs) hsl2
          have hne2 := ne_nil_of_getLast? _ _ hgo
          cases hgoe : replaceAllGo pat rep f (d :: t2) with
          | nil => exact absurd hgoe hne2
          | cons e es =>
            rw [hgoe] at hgo
            rw [List.getLast?_cons_cons]
            exact hgo

/-! ## C8: preservation through the IO-LEF passes -/

def lineCounts (sl : List Str) : Nat := (sl.map (countSub sPort)).sum

def allNL (sl : List Str) : Prop := ∀ l ∈ sl, l.getLast? = some (Char.ofNat 10)

theorem lineCounts_cons (l : Str) (r : List Str) :
    lineCounts (l :: r) = countSub sPort l + lineCounts r := rfl

theorem lineCounts_set : ∀ (sl : List Str) (i : Nat) (x v : Str), sl[i]? = some x →
    countSub sPort v = countSub sPort x → lineCounts (sl.set i v) = lineCounts sl
  | [], i, x, v, h, _ => by simp at h
  | c :: t, 0, x, v, h, hv => by
    have hx : c = x := by simpa using h
    subst hx
    rw [List.set_cons_zero, lineCounts_cons, lineCounts_cons, hv]
  | c :: t, i + 1, x, v, h, hv => by
    have h2 : t[i]? = some x := by simpa using h
    rw [List.set_cons_succ, lineCounts_cons, lineCounts_cons, lineCounts_set t i x v h2 hv]

theorem allNL_set : ∀ (sl : List Str) (i : Nat) (v : Str),
    v.getLast? = some (Char.ofNat 10) → allNL sl → allNL (sl.set i v)
  | [], i, v, hv, hall => by simpa [allNL] using hall
  | c :: t, 0, v, hv, hall => by
    rw [List.set_cons_zero]
    intro l hl
    rcases List.mem_cons.mp hl with rfl | hl2
    · exact hv
    · exact hall l (List.mem_cons_of_mem _ hl2)
  | c :: t, i + 1, v, hv, hall => by
    rw [List.set_cons_succ]
    intro l hl
    rcases List.mem_cons.mp hl with rfl | hl2
    · exact hall l (List.mem_cons_self _ _)
    · exact allNL_set t i v hv (fun y hy => hall y (List.mem_cons_of_mem _ hy)) l hl2

theorem mem_of_getElem?Str : ∀ (l : List Str) (i : Nat) (x : Str), l[i]? = some x → x ∈ l
  | [], i, x, h => by simp at h
  | c :: t, 0, x, h => by
    have hx : c = x := by simpa using h
    exact hx ▸ List.mem_cons_self _ _
  | c :: t, i + 1, x, h =>
    List.mem_cons_of_mem _ (mem_of_getElem?Str t i x (by simpa using h))

theorem lineCounts_listModify (g : Str → Str)
    (hg : ∀ l, countSub sPort (g l) = countSub sPort l) (i : Nat) (sl : List Str) :
    lineCounts (listModify g i sl) = lineCounts sl := by
  unfold listModify
  cases h : sl[i]? with
  | none => rfl
  | some x => exact lineCounts_set sl i x (g x) h (hg x)

theorem allNL_listModify (g : Str → Str)
    (hg : ∀ l, l.getLast? = some (Char.ofNat 10) → (g l).getLast? = some (Char.ofNat 10))
    (i : Nat) (sl : List Str) (hall : allNL sl) : allNL (listModify g i sl) := by
  unfold listModify
  cases h : sl[i]? with
  | none => exact hall
  | some x => exact allNL_set sl i (g x) (hg x (hall x (mem_of_getElem?Str sl i x h))) hall

theorem foldl_preserve {α β : Type} (P : β → Prop) (step : β → α → β)
    (h : ∀ b a, P b → P (step b a)) : ∀ (xs : List α) (b : β), P b → P (xs.foldl step b)
  | [], b, hb => hb
  | x :: xs, b, hb => foldl_preserve P step h xs (step b x) (h b x hb)

theorem pinPhase_preserve (net : Str) (sl : List Str) :
    lineCounts (pinPhaseNet net sl) = lineCounts sl ∧
      (allNL sl → allNL (pinPhaseNet net sl)) := by
  have hcnt : ∀ l : Str, countSub sPort (replaceAll sPort sPortRep l) = countSub sPort l :=
    fun l => countSub_port_go_port l.length l le_rfl
  have hnl : ∀ l : Str, l.getLast? = some (Char.ofNat 10) →
      (replaceAll sPort sPortRep l).getLast? = some (Char.ofNat 10) :=
    fun l => getLast?_replaceAllGo sPort sPortRep (by decide) (by decide) l.length l le_rfl
  unfold pinPhaseNet
  refine foldl_preserve (fun b => lineCounts b = lineCounts sl ∧ (allNL sl → allNL b))
    _ ?_ _ sl ⟨rfl, fun h => h⟩
  intro b iv hb
  refine foldl_preserve (fun b => lineCounts b = lineCounts sl ∧ (allNL sl → allNL b))
    _ ?_ _ b hb
  intro b2 j hb2
  constructor
  · rw [lineCounts_listModify _ hcnt, hb2.1]
  · intro h
    exact allNL_listModify _ hnl _ _ (hb2.2 h)

theorem spacerFix_preserve (cell : Str) (sl sl2 : List Str)
    (h : spacerFix cell sl = .ok sl2) :
    lineCounts sl2 = lineCounts sl ∧ (allNL sl → allNL sl2) := by
  have hcnt : ∀ l : Str, countSub sPort (replaceAll sAreaio sSpacer l) = countSub sPort l :=
    fun l => countSub_port_go_areaio l.length l le_rfl
  have hnl : ∀ l : Str, l.getLast? = some (Char.ofNat 10) →
      (replaceAll sAreaio sSpacer l).getLast? = some (Char.ofNat 10) :=
    fun l => getLast?_replaceAllGo sAreaio sSpacer (by decide) (by decide) l.length l le_rfl
  unfold spacerFix at h
  split at h
  · exact absurd h (by simp)
  · rename_i i hidx
    split at h
    · exact absurd h (by simp)
    · rename_i line hline
      have h2 := Except.ok.inj h
      subst h2
      constructor
      · exact lineCounts_set sl (i + 1) line _ hline (hcnt line)
      · intro hall
        exact allNL_set sl (i + 1) _ (hnl line (hall line (mem_of_getElem?Str sl _ _ hline)))
          hall

theorem spacerFixAll_preserve : ∀ (cells : List Str) (sl sl2 : List Str),
    spacerFixAll cells sl = .ok sl2 →
    lineCounts sl2 = lineCounts sl ∧ (allNL sl → allNL sl2)
  | [], sl, sl2, h => by
    have h2 := Except.ok.inj h
    subst h2
    exact ⟨rfl, fun h => h⟩
  | cell :: rest, sl, sl2, h => by
    unfold spacerFixAll at h
    split at h
    · exact absurd h (by simp)
    · rename_i slm hm
      obtain ⟨hc1, ha1⟩ := spacerFix_preserve cell sl slm hm
      obtain ⟨hc2, ha2⟩ := spacerFixAll_preserve rest slm sl2 h
      exact ⟨by rw [hc2, hc1], fun hall => ha2 (ha1 hall)⟩

theorem ioLefTransform_preserve (sl sl2 : List Str) (h : ioLefTransform sl = .ok sl2) :
    lineCounts sl2 = lineCounts sl ∧ (allNL sl → allNL sl2) := by
  unfold ioLefTransform at h
  obtain ⟨hcV, haV⟩ := pinPhase_preserve sVccd1 sl
  obtain ⟨hcS, haS⟩ := pinPhase_preserve sVssd1 (pinPhaseNet sVccd1 sl)
  obtain ⟨hcF, haF⟩ := spacerFixAll_preserve spacerCells _ sl2 h
  exact ⟨by rw [hcF, hcS, hcV], fun hall => haF (haS (haV hall))⟩

def c8Input : List Str :=
  [("MACRO sky130_ef_io__com_bus_slice_1um\n").toList,
   ("  PIN VCCD1\n").toList,
   ("    PORT\n").toList,
   ("      LAYER met3 ;\n").toList,
   ("    END\n").toList,
   ("  END VCCD1\n").toList,
   ("MACRO sky130_ef_io__connect_vcchib_vccd_and_vswitch_vddio_slice_20um\n").toList,
   ("  CLASS AREAIO ;\n").toList,
   ("MACRO sky130_ef_io__disconnect_vccd_slice_5um\n").toList,
   ("  CLASS AREAIO ;\n").toList,
   ("MACRO sky130_ef_io__disconnect_vdda_slice_5um\n").toList,
   ("  CLASS AREAIO ;\n").toList]

def c8Expected : List Str :=
  [("MACRO sky130_ef_io__com_bus_slice_1um\n").toList,
   ("  PIN VCCD1\n").toList,
   ("    PORT\n      CLASS CORE ;\n").toList,
   ("      LAYER met3 ;\n").toList,
   ("    END\n").toList,
   ("  END VCCD1\n").toList,
   ("MACRO sky130_ef_io__connect_vcchib_vccd_and_vswitch_vddio_slice_20um\n").toList,
   ("  CLASS SPACER ;\n").toList,
   ("MACRO sky130_ef_io__disconnect_vccd_slice_5um\n").toList,
   ("  CLASS SPACER ;\n").toList,
   ("MACRO sky130_ef_io__disconnect_vdda_slice_5um\n").toList,
   ("  CLASS SPACER ;\n").toList]

/-- C8: the IO-LEF repair inserts a `CLASS CORE ;` line immediately after the
`PORT` keyword inside the supply-net pin blocks (concrete end-to-end example:
a `PIN VCCD1` block with one `PORT` keyword), and — for every input whose
lines are newline-terminated, whenever the repair completes — the number of
`PORT` occurrences in the destination file equals the number in the source
file: no `PORT` keyword is added or removed. -/
theorem ioLef_port_insertion_and_count :
    (∀ sl sl2 : List Str, (∀ l ∈ sl, l.getLast? = some (Char.ofNat 10)) →
      ioLefTransform sl = .ok sl2 →
      countSub sPort (joinStr sl2) = countSub sPort (joinStr sl)) ∧
    ioLefTransform c8Input = .ok c8Expected := by
  constructor
  · intro sl sl2 hNL h
    obtain ⟨hc, ha⟩ := ioLefTransform_preserve sl sl2 h
    rw [countSub_flatten sPort (by decide) (by decide) sl2 (ha hNL),
      countSub_flatten sPort (by decide) (by decide) sl hNL]
    exact hc
  · rfl

/-- C8 witness: the count-preservation part applied to the concrete example. -/
theorem ioLef_port_insertion_and_count_witness :
    countSub sPort (joinStr c8Expected) = countSub sPort (joinStr c8Input) :=
  ioLef_port_insertion_and_count.1 c8Input c8Expected (by decide) rfl

end Sky130
